import Mathlib

/-!
Verification of the boid fish animation and starfield of the jijinbei-homepage
repository. The per-frame simulation code (`applyBoidRules`, `updateFishAnimation`
from the fish-animation module, the star mutation loop of `drawStars`) is embedded
shallowly over the real numbers: THREE.js `Vector3` operations are translated
componentwise, with `normalize` dividing by `length() || 1` and `divideScalar s`
multiplying by `1 / s`, exactly as in the THREE source the repository calls into.
Nondeterministic inputs (`Math.random()` jitter, the sampled pointer position and
viewport size) become explicit parameters.
-/

noncomputable section

/-- Shallow embedding of `THREE.Vector3`: three real components. -/
@[ext]
structure Vec3 where
  x : ℝ
  y : ℝ
  z : ℝ

namespace Vec3

/-- `new THREE.Vector3()` — the zero vector. -/
def zero : Vec3 := ⟨0, 0, 0⟩

/-- `Vector3.add` — componentwise addition. -/
def add (a b : Vec3) : Vec3 := ⟨a.x + b.x, a.y + b.y, a.z + b.z⟩

/-- `Vector3.subVectors` / `Vector3.sub` — componentwise subtraction. -/
def sub (a b : Vec3) : Vec3 := ⟨a.x - b.x, a.y - b.y, a.z - b.z⟩

/-- `Vector3.multiplyScalar`. -/
def multiplyScalar (a : Vec3) (s : ℝ) : Vec3 := ⟨a.x * s, a.y * s, a.z * s⟩

/-- `Vector3.divideScalar` — THREE implements it as `multiplyScalar(1 / s)`. -/
def divideScalar (a : Vec3) (s : ℝ) : Vec3 := a.multiplyScalar (1 / s)

/-- `Vector3.length` — Euclidean norm. -/
def length (a : Vec3) : ℝ := Real.sqrt (a.x ^ 2 + a.y ^ 2 + a.z ^ 2)

/-- `Vector3.distanceTo`. -/
def distanceTo (a b : Vec3) : ℝ := (a.sub b).length

/-- `Vector3.normalize` — THREE divides by `this.length() || 1`, so a zero
vector is left unchanged rather than producing a division by zero. -/
def normalize (a : Vec3) : Vec3 :=
  a.divideScalar (if a.length = 0 then 1 else a.length)

lemma length_nonneg (a : Vec3) : 0 ≤ a.length := Real.sqrt_nonneg _

lemma length_smul (a : Vec3) (s : ℝ) :
    (a.multiplyScalar s).length = |s| * a.length := by
  unfold length multiplyScalar
  have h : (a.x * s) ^ 2 + (a.y * s) ^ 2 + (a.z * s) ^ 2
      = s ^ 2 * (a.x ^ 2 + a.y ^ 2 + a.z ^ 2) := by ring
  rw [h, Real.sqrt_mul (sq_nonneg s), Real.sqrt_sq_eq_abs]

lemma length_eq_zero_iff (a : Vec3) : a.length = 0 ↔ a = zero := by
  unfold length
  have hnn : 0 ≤ a.x ^ 2 + a.y ^ 2 + a.z ^ 2 := by positivity
  rw [Real.sqrt_eq_zero hnn]
  constructor
  · intro hsum
    have hx := sq_nonneg a.x
    have hy := sq_nonneg a.y
    have hz := sq_nonneg a.z
    have hx0 : a.x = 0 := by nlinarith
    have hy0 : a.y = 0 := by nlinarith
    have hz0 : a.z = 0 := by nlinarith
    ext <;> simp [zero, hx0, hy0, hz0]
  · intro h
    subst h
    norm_num [zero]

/-- Norm of the normalization of a nonzero vector is `1`. -/
lemma length_normalize (a : Vec3) (h : a.length ≠ 0) :
    a.normalize.length = 1 := by
  have hpos : 0 < a.length := lt_of_le_of_ne (length_nonneg a) (Ne.symm h)
  unfold normalize divideScalar
  rw [length_smul, if_neg h, abs_of_nonneg (le_of_lt (div_pos one_pos hpos))]
  field_simp

/-- A vector with one real component on the x axis has norm the absolute value. -/
lemma length_x (a : ℝ) : (Vec3.mk a 0 0).length = |a| := by
  unfold length
  simp [Real.sqrt_sq_eq_abs]

/-- Monotonicity of the norm under componentwise absolute-value decrease. -/
lemma length_le_length (a b : Vec3) (hx : |a.x| ≤ |b.x|) (hy : |a.y| ≤ |b.y|)
    (hz : |a.z| ≤ |b.z|) : a.length ≤ b.length := by
  unfold length
  apply Real.sqrt_le_sqrt
  have h1 : a.x ^ 2 ≤ b.x ^ 2 := by
    rw [← sq_abs a.x, ← sq_abs b.x]
    exact pow_le_pow_left₀ (abs_nonneg _) hx 2
  have h2 : a.y ^ 2 ≤ b.y ^ 2 := by
    rw [← sq_abs a.y, ← sq_abs b.y]
    exact pow_le_pow_left₀ (abs_nonneg _) hy 2
  have h3 : a.z ^ 2 ≤ b.z ^ 2 := by
    rw [← sq_abs a.z, ← sq_abs b.z]
    exact pow_le_pow_left₀ (abs_nonneg _) hz 2
  linarith

end Vec3

namespace StarSim

/-- Shallow embedding of the `Star` record of the starfield engine (namespaced
because Mathlib already uses the name `Star`). -/
structure Star where
  x : ℝ
  y : ℝ
  opacity : ℝ
  baseOpacity : ℝ
  twinklePhase : ℝ

/-- The per-star mutation performed by `drawStars` each frame:
`star.twinklePhase += 0.02; star.opacity = star.baseOpacity + Math.sin(star.twinklePhase) * 0.1`.
The canvas drawing that follows is I/O and outside the embedding. -/
def advanceStar (s : Star) : Star :=
  let phase := s.twinklePhase + 0.02
  { s with twinklePhase := phase, opacity := s.baseOpacity + Real.sin phase * 0.1 }

/-- The state change of `drawStars` over the whole star list. -/
def drawStarsAdvance (stars : List Star) : List Star := stars.map advanceStar

end StarSim

/-- Model of the renderable mesh handle (`THREE.Group`). The simulator only
writes into it: `fish.mesh.position.copy(fish.position)` and, above the speed
threshold, `lookAt(targetPos)` followed by the constant `rotateY(-π/2)`
correction; the orientation state is abstracted as the most recent look-at
target (the fixed `rotateY` composition carries no further state). -/
structure Mesh where
  position : Vec3
  lookTarget : Vec3

/-- Shallow embedding of the `Fish` record from `types.ts`: id, position,
velocity, nullable mesh handle, and a cosmetic HSL color. -/
structure Fish where
  id : ℤ
  position : Vec3
  velocity : Vec3
  mesh : Option Mesh
  color : ℝ × ℝ × ℝ

/-- The mutable accumulators of `applyBoidRules`: the three rule sums and
their contribution counters. -/
structure BoidAcc where
  separation : Vec3
  alignment : Vec3
  cohesion : Vec3
  separationCount : ℕ
  alignmentCount : ℕ
  cohesionCount : ℕ

/-- Initial accumulator state: `new THREE.Vector3()` three times, counters 0. -/
def initAcc : BoidAcc := ⟨Vec3.zero, Vec3.zero, Vec3.zero, 0, 0, 0⟩

/-- The separation contribution a single qualifying neighbor adds:
`diff.normalize().divideScalar(distance)` with
`diff = fish.position - neighbor.position`. -/
def sepContrib (fish n : Fish) : Vec3 :=
  ((fish.position.sub n.position).normalize).divideScalar
    (fish.position.distanceTo n.position)

/-- The body of the `neighbors.forEach` loop of `applyBoidRules`: skip the
fish itself (by id), then conditionally accumulate separation
(`distance < 50 && distance > 0`), alignment (`distance < 80`) and cohesion
(`distance < 120`). -/
def boidStepNeighbor (fish : Fish) (acc : BoidAcc) (neighbor : Fish) : BoidAcc :=
  if neighbor.id = fish.id then acc
  else
    let distance := fish.position.distanceTo neighbor.position
    let acc1 := if distance < 50 ∧ 0 < distance then
        { acc with separation := acc.separation.add (sepContrib fish neighbor),
                   separationCount := acc.separationCount + 1 }
      else acc
    let acc2 := if distance < 80 then
        { acc1 with alignment := acc1.alignment.add neighbor.velocity,
                    alignmentCount := acc1.alignmentCount + 1 }
      else acc1
    if distance < 120 then
      { acc2 with cohesion := acc2.cohesion.add neighbor.position,
                  cohesionCount := acc2.cohesionCount + 1 }
    else acc2

/-- Accumulator state after the whole `neighbors.forEach` loop. -/
def boidAcc (fish : Fish) (neighbors : List Fish) : BoidAcc :=
  neighbors.foldl (boidStepNeighbor fish) initAcc

/-- The pointer position converted to the centered simulation frame:
`new THREE.Vector3(mouse.x - innerWidth/2, -(mouse.y - innerHeight/2), 0)`. -/
def mousePosOf (mouse : ℝ × ℝ) (innerW innerH : ℝ) : Vec3 :=
  ⟨mouse.1 - innerW / 2, -(mouse.2 - innerH / 2), 0⟩

/-- Separation post-processing of `applyBoidRules`: when any neighbor
contributed, `separation.divideScalar(count).normalize().multiplyScalar(0.5)`. -/
def separationComponent (fish : Fish) (neighbors : List Fish) : Vec3 :=
  let acc := boidAcc fish neighbors
  if 0 < acc.separationCount then
    ((acc.separation.divideScalar (acc.separationCount : ℝ)).normalize).multiplyScalar 0.5
  else acc.separation

/-- Alignment post-processing:
`alignment.divideScalar(count).normalize().multiplyScalar(0.1)`. -/
def alignmentComponent (fish : Fish) (neighbors : List Fish) : Vec3 :=
  let acc := boidAcc fish neighbors
  if 0 < acc.alignmentCount then
    ((acc.alignment.divideScalar (acc.alignmentCount : ℝ)).normalize).multiplyScalar 0.1
  else acc.alignment

/-- Cohesion post-processing:
`cohesion.divideScalar(count).sub(fish.position).normalize().multiplyScalar(0.05)`. -/
def cohesionComponent (fish : Fish) (neighbors : List Fish) : Vec3 :=
  let acc := boidAcc fish neighbors
  if 0 < acc.cohesionCount then
    (((acc.cohesion.divideScalar (acc.cohesionCount : ℝ)).sub fish.position).normalize).multiplyScalar 0.05
  else acc.cohesion

/-- Pointer attraction: if `0 < mouseDistance < 200`,
`subVectors(mousePos, fish.position).normalize().multiplyScalar(0.3)`,
otherwise the zero vector it was initialized to. -/
def mouseAttractionComponent (fish : Fish) (mouse : ℝ × ℝ) (innerW innerH : ℝ) : Vec3 :=
  let mp := mousePosOf mouse innerW innerH
  let mouseDistance := fish.position.distanceTo mp
  if mouseDistance < 200 ∧ 0 < mouseDistance then
    ((mp.sub fish.position).normalize).multiplyScalar 0.3
  else Vec3.zero

/-- `applyBoidRules(fish, neighbors, mousePosition)`: the sum of the four
steering contributions, starting from `new THREE.Vector3()`. The sampled
`window.innerWidth` / `window.innerHeight` are explicit parameters. -/
def applyBoidRules (fish : Fish) (neighbors : List Fish) (mouse : ℝ × ℝ)
    (innerW innerH : ℝ) : Vec3 :=
  (((Vec3.zero.add (separationComponent fish neighbors)).add
      (alignmentComponent fish neighbors)).add
      (cohesionComponent fish neighbors)).add
      (mouseAttractionComponent fish mouse innerW innerH)

/-- One axis of the boundary handling: if the position component left
`[lo, hi]`, multiply the velocity component by `-0.8` and clamp the position
component with `Math.max(lo, Math.min(hi, p))`; otherwise leave both alone. -/
def reflectAxis (v p lo hi : ℝ) : ℝ × ℝ :=
  if p < lo ∨ hi < p then (v * (-0.8), max lo (min hi p)) else (v, p)

/-- Velocity after adding the boid force and the random jitter
(`fish.velocity.add(boidForce)` then `fish.velocity.add(jitter)`). -/
def velAfterForces (fish : Fish) (force jitter : Vec3) : Vec3 :=
  (fish.velocity.add force).add jitter

/-- Velocity after the speed cap: `if (length > maxSpeed) normalize().multiplyScalar(maxSpeed)`
with `maxSpeed = 5` in the fish-animation module. -/
def velAfterCap (fish : Fish) (force jitter : Vec3) : Vec3 :=
  let v1 := velAfterForces fish force jitter
  if 5 < v1.length then (v1.normalize).multiplyScalar 5 else v1

/-- Velocity entering the boundary check: damping `multiplyScalar(0.98)`. -/
def velPreBoundary (fish : Fish) (force jitter : Vec3) : Vec3 :=
  (velAfterCap fish force jitter).multiplyScalar 0.98

/-- Position entering the boundary check: `fish.position.add(fish.velocity)`. -/
def posPreBoundary (fish : Fish) (force jitter : Vec3) : Vec3 :=
  fish.position.add (velPreBoundary fish force jitter)

/-- The integration body of `updateFishAnimation` for one fish with a
non-null mesh, with the steering force and jitter as explicit inputs: cap,
damping, position update, per-axis boundary reflection, mesh write-back and
the conditional facing update. -/
def stepFishCore (fish : Fish) (force jitter : Vec3) (halfWidth halfHeight : ℝ) : Fish :=
  let v := velPreBoundary fish force jitter
  let p := posPreBoundary fish force jitter
  let rx := reflectAxis v.x p.x (-halfWidth) halfWidth
  let ry := reflectAxis v.y p.y (-halfHeight) halfHeight
  let rz := reflectAxis v.z p.z (-100) 100
  let velFinal : Vec3 := ⟨rx.1, ry.1, rz.1⟩
  let posFinal : Vec3 := ⟨rx.2, ry.2, rz.2⟩
  let meshFinal := fish.mesh.map fun m =>
    let m1 := { m with position := posFinal }
    if 0.01 < velFinal.length then
      { m1 with lookTarget := posFinal.add velFinal.normalize }
    else m1
  { fish with position := posFinal, velocity := velFinal, mesh := meshFinal }

/-- One fish's full per-frame step inside `updateFishAnimation`: the boid
force is computed from the current neighbor array, then the integration body
runs with `halfWidth = innerWidth / 2`, `halfHeight = innerHeight / 2`. -/
def stepFish (fish : Fish) (neighbors : List Fish) (mouse : ℝ × ℝ)
    (innerW innerH : ℝ) (jitter : Vec3) : Fish :=
  stepFishCore fish (applyBoidRules fish neighbors mouse innerW innerH) jitter
    (innerW / 2) (innerH / 2)

/-- The `fishes.forEach` loop of `updateFishAnimation` with in-place mutation
made explicit: `done` is the already-updated prefix, and each fish sees the
array `done ++ (current :: rest)` as its neighbor list, exactly as the mutated
JavaScript array does. A fish whose mesh handle is null is skipped
(`if (!fish.mesh) return`). `jit i` is the random jitter drawn for the i-th
fish. -/
def updateLoop (mouse : ℝ × ℝ) (innerW innerH : ℝ) (jit : ℕ → Vec3) :
    List Fish → List Fish → ℕ → List Fish
  | done, [], _ => done
  | done, f :: rest, i =>
    match f.mesh with
    | none => updateLoop mouse innerW innerH jit (done ++ [f]) rest (i + 1)
    | some _ => updateLoop mouse innerW innerH jit
        (done ++ [stepFish f (done ++ f :: rest) mouse innerW innerH (jit i)]) rest (i + 1)

/-- `updateFishAnimation(fishes, mousePosition)` as a function of the fish
array, the sampled pointer position, the sampled viewport size and the
per-fish random jitters. -/
def updateFishAnimation (fishes : List Fish) (mouse : ℝ × ℝ)
    (innerW innerH : ℝ) (jit : ℕ → Vec3) : List Fish :=
  updateLoop mouse innerW innerH jit [] fishes 0

/-- Unfolding of the velocity field of the integration body. -/
lemma stepFishCore_velocity (fish : Fish) (force jitter : Vec3) (hw hh : ℝ) :
    (stepFishCore fish force jitter hw hh).velocity =
      ⟨(reflectAxis (velPreBoundary fish force jitter).x
          (posPreBoundary fish force jitter).x (-hw) hw).1,
       (reflectAxis (velPreBoundary fish force jitter).y
          (posPreBoundary fish force jitter).y (-hh) hh).1,
       (reflectAxis (velPreBoundary fish force jitter).z
          (posPreBoundary fish force jitter).z (-100) 100).1⟩ := rfl

/-- Unfolding of the position field of the integration body. -/
lemma stepFishCore_position (fish : Fish) (force jitter : Vec3) (hw hh : ℝ) :
    (stepFishCore fish force jitter hw hh).position =
      ⟨(reflectAxis (velPreBoundary fish force jitter).x
          (posPreBoundary fish force jitter).x (-hw) hw).2,
       (reflectAxis (velPreBoundary fish force jitter).y
          (posPreBoundary fish force jitter).y (-hh) hh).2,
       (reflectAxis (velPreBoundary fish force jitter).z
          (posPreBoundary fish force jitter).z (-100) 100).2⟩ := rfl

/-- Boundary reflection never increases the absolute value of the velocity
component: it either keeps it or multiplies it by `-0.8`. -/
lemma reflectAxis_abs_fst (v p lo hi : ℝ) : |(reflectAxis v p lo hi).1| ≤ |v| := by
  unfold reflectAxis
  split_ifs with h
  · have : |v * (-0.8)| = |v| * 0.8 := by
      rw [abs_mul]
      norm_num
    rw [this]
    nlinarith [abs_nonneg v]
  · exact le_refl _

/-- The clamped position component lies in `[lo, hi]` whenever that interval
is nonempty. -/
lemma reflectAxis_snd_mem (v p lo hi : ℝ) (hlohi : lo ≤ hi) :
    lo ≤ (reflectAxis v p lo hi).2 ∧ (reflectAxis v p lo hi).2 ≤ hi := by
  unfold reflectAxis
  split_ifs with h
  · exact ⟨le_max_left _ _, max_le hlohi (min_le_left _ _)⟩
  · push_neg at h
    exact ⟨h.1, h.2⟩

/-- After the speed cap, the velocity magnitude is at most `maxSpeed = 5`. -/
lemma velAfterCap_length_le (fish : Fish) (force jitter : Vec3) :
    (velAfterCap fish force jitter).length ≤ 5 := by
  simp only [velAfterCap]
  by_cases h : 5 < (velAfterForces fish force jitter).length
  · have hne : (velAfterForces fish force jitter).length ≠ 0 := by
      intro h0
      rw [h0] at h
      norm_num at h
    rw [if_pos h, Vec3.length_smul, Vec3.length_normalize _ hne]
    norm_num
  · rw [if_neg h]
    exact le_of_not_lt h

/-- After damping, the velocity magnitude is at most `0.98 * 5`. -/
lemma velPreBoundary_length_le (fish : Fish) (force jitter : Vec3) :
    (velPreBoundary fish force jitter).length ≤ 0.98 * 5 := by
  unfold velPreBoundary
  rw [Vec3.length_smul]
  have h8 : |(0.98 : ℝ)| = 0.98 := by norm_num
  rw [h8]
  have := velAfterCap_length_le fish force jitter
  nlinarith

/-- The final velocity of the integration body has magnitude at most
`0.98 * 5`: reflection only shrinks components. -/
lemma stepFishCore_velocity_length_le (fish : Fish) (force jitter : Vec3) (hw hh : ℝ) :
    (stepFishCore fish force jitter hw hh).velocity.length ≤ 0.98 * 5 := by
  rw [stepFishCore_velocity]
  refine le_trans (Vec3.length_le_length _ (velPreBoundary fish force jitter) ?_ ?_ ?_)
    (velPreBoundary_length_le fish force jitter)
  · exact reflectAxis_abs_fst _ _ _ _
  · exact reflectAxis_abs_fst _ _ _ _
  · exact reflectAxis_abs_fst _ _ _ _

/-- Difference order does not change the norm. -/
lemma Vec3.length_sub_comm (a b : Vec3) : (a.sub b).length = (b.sub a).length := by
  unfold Vec3.length Vec3.sub
  congr 1
  ring

/-- A neighbor that is at distance at least 120 (or is the fish itself)
contributes to none of the three accumulators. -/
lemma boidStepNeighbor_far (fish : Fish) (acc : BoidAcc) (n : Fish)
    (h : n.id ≠ fish.id → 120 ≤ fish.position.distanceTo n.position) :
    boidStepNeighbor fish acc n = acc := by
  by_cases hid : n.id = fish.id
  · simp only [boidStepNeighbor, if_pos hid]
  · have hd := h hid
    have h50 : ¬(fish.position.distanceTo n.position < 50 ∧
        0 < fish.position.distanceTo n.position) := by
      rintro ⟨h1, -⟩
      linarith
    have h80 : ¬(fish.position.distanceTo n.position < 80) := by linarith
    have h120 : ¬(fish.position.distanceTo n.position < 120) := by linarith
    simp only [boidStepNeighbor, if_neg hid, if_neg h50, if_neg h80, if_neg h120]

/-- With all neighbors far (or the fish itself), the accumulator loop is the
identity. -/
lemma boidAcc_far (fish : Fish) (ns : List Fish)
    (h : ∀ n ∈ ns, n.id ≠ fish.id → 120 ≤ fish.position.distanceTo n.position) :
    boidAcc fish ns = initAcc := by
  unfold boidAcc
  suffices key : ∀ t : List Fish,
      (∀ n ∈ t, n.id ≠ fish.id → 120 ≤ fish.position.distanceTo n.position) →
      ∀ acc, List.foldl (boidStepNeighbor fish) acc t = acc from key ns h initAcc
  intro t
  induction t with
  | nil => intro _ acc; rfl
  | cons n t ih =>
    intro h' acc
    rw [List.foldl_cons, boidStepNeighbor_far fish acc n (h' n (List.mem_cons_self n t))]
    exact ih (fun m hm => h' m (List.mem_cons_of_mem n hm)) acc

/-- The unit vector pointing from `a` toward `b`, as the spec describes it:
the difference divided by its length. -/
def unitFromTo (a b : Vec3) : Vec3 :=
  (b.sub a).divideScalar ((b.sub a).length)

/-- The pointer-attraction rule as worded by the spec: convert the pointer to
the centered frame `(x - halfWidth, -(y - halfHeight), 0)`; if the distance
from the agent to that point is strictly between 0 and 200, take the unit
vector from the agent toward it scaled by `0.3`, else the zero vector. -/
def mouseAttractionSpec (fish : Fish) (mouse : ℝ × ℝ) (innerW innerH : ℝ) : Vec3 :=
  let target : Vec3 := ⟨mouse.1 - innerW / 2, -(mouse.2 - innerH / 2), 0⟩
  let d := fish.position.distanceTo target
  if 0 < d ∧ d < 200 then (unitFromTo fish.position target).multiplyScalar 0.3
  else Vec3.zero

/-- `divideScalar` instrumented to fail instead of dividing by zero (in IEEE
arithmetic a zero scalar would produce infinities). -/
def Vec3.divideScalarChecked (a : Vec3) (s : ℝ) : Option Vec3 :=
  if s = 0 then none else some (a.divideScalar s)

/-- `normalize` with the instrumented division; THREE's `length() || 1`
fallback makes the divisor nonzero by construction. -/
def Vec3.normalizeChecked (a : Vec3) : Option Vec3 :=
  a.divideScalarChecked (if a.length = 0 then 1 else a.length)

/-- The checked separation contribution of one neighbor. -/
def sepContribChecked (fish n : Fish) : Option Vec3 :=
  (fish.position.sub n.position).normalizeChecked.bind fun u =>
    u.divideScalarChecked (fish.position.distanceTo n.position)

/-- The loop body of `applyBoidRules` with every division instrumented. -/
def boidStepNeighborChecked (fish : Fish) (acc : Option BoidAcc)
    (neighbor : Fish) : Option BoidAcc :=
  acc.bind fun a =>
    if neighbor.id = fish.id then some a
    else
      let distance := fish.position.distanceTo neighbor.position
      let acc1 : Option BoidAcc := if distance < 50 ∧ 0 < distance then
          (sepContribChecked fish neighbor).map fun c =>
            { a with separation := a.separation.add c,
                     separationCount := a.separationCount + 1 }
        else some a
      acc1.map fun a1 =>
        let a2 := if distance < 80 then
            { a1 with alignment := a1.alignment.add neighbor.velocity,
                      alignmentCount := a1.alignmentCount + 1 }
          else a1
        if distance < 120 then
          { a2 with cohesion := a2.cohesion.add neighbor.position,
                    cohesionCount := a2.cohesionCount + 1 }
        else a2

/-- The checked accumulator loop. -/
def boidAccChecked (fish : Fish) (neighbors : List Fish) : Option BoidAcc :=
  neighbors.foldl (boidStepNeighborChecked fish) (some initAcc)

/-- Checked separation post-processing. -/
def separationComponentChecked (fish : Fish) (neighbors : List Fish) : Option Vec3 :=
  (boidAccChecked fish neighbors).bind fun acc =>
    if 0 < acc.separationCount then
      ((acc.separation.divideScalarChecked (acc.separationCount : ℝ)).bind
        Vec3.normalizeChecked).map fun v => v.multiplyScalar 0.5
    else some acc.separation

/-- Checked alignment post-processing. -/
def alignmentComponentChecked (fish : Fish) (neighbors : List Fish) : Option Vec3 :=
  (boidAccChecked fish neighbors).bind fun acc =>
    if 0 < acc.alignmentCount then
      ((acc.alignment.divideScalarChecked (acc.alignmentCount : ℝ)).bind
        Vec3.normalizeChecked).map fun v => v.multiplyScalar 0.1
    else some acc.alignment

/-- Checked cohesion post-processing. -/
def cohesionComponentChecked (fish : Fish) (neighbors : List Fish) : Option Vec3 :=
  (boidAccChecked fish neighbors).bind fun acc =>
    if 0 < acc.cohesionCount then
      (acc.cohesion.divideScalarChecked (acc.cohesionCount : ℝ)).bind fun v =>
        ((v.sub fish.position).normalizeChecked).map fun u => u.multiplyScalar 0.05
    else some acc.cohesion

/-- Checked pointer attraction. -/
def mouseAttractionComponentChecked (fish : Fish) (mouse : ℝ × ℝ)
    (innerW innerH : ℝ) : Option Vec3 :=
  let mp := mousePosOf mouse innerW innerH
  let mouseDistance := fish.position.distanceTo mp
  if mouseDistance < 200 ∧ 0 < mouseDistance then
    ((mp.sub fish.position).normalizeChecked).map fun u => u.multiplyScalar 0.3
  else some Vec3.zero

/-- `applyBoidRules` with every scalar division instrumented: returns `none`
as soon as any executed division has a zero divisor. -/
def applyBoidRulesChecked (fish : Fish) (neighbors : List Fish) (mouse : ℝ × ℝ)
    (innerW innerH : ℝ) : Option Vec3 :=
  (separationComponentChecked fish neighbors).bind fun sep =>
  (alignmentComponentChecked fish neighbors).bind fun ali =>
  (cohesionComponentChecked fish neighbors).bind fun coh =>
  (mouseAttractionComponentChecked fish mouse innerW innerH).map fun ma =>
    (((Vec3.zero.add sep).add ali).add coh).add ma

/-- Qualification predicate of the separation rule: another agent (by id) at
distance strictly between `0` and the separation radius `50`. -/
def sepQualifies (fish n : Fish) : Prop :=
  n.id ≠ fish.id ∧ fish.position.distanceTo n.position < 50 ∧
    0 < fish.position.distanceTo n.position

instance (fish n : Fish) : Decidable (sepQualifies fish n) := by
  unfold sepQualifies
  infer_instance

/-- The separation rule as worded by the spec: over every neighbor strictly
closer than 50 and at positive distance, sum the unit vector pointing from the
neighbor toward the agent divided by that distance, average over the
contributing neighbors, normalize, scale by `0.5` (zero when no neighbor
contributes). -/
def sepSpec (fish : Fish) (neighbors : List Fish) : Vec3 :=
  let ns := neighbors.filter fun n => decide (sepQualifies fish n)
  if ns.length = 0 then Vec3.zero
  else (((ns.foldl (fun s n =>
      s.add ((unitFromTo n.position fish.position).divideScalar
        (fish.position.distanceTo n.position))) Vec3.zero).divideScalar
      (ns.length : ℝ)).normalize).multiplyScalar 0.5

/-- A fish with every field zero and a null mesh, used as a concrete input. -/
def fish0 : Fish := ⟨0, Vec3.zero, Vec3.zero, none, (0, 0, 0)⟩

/-- A concrete fish about to overshoot only the x boundary: position
`(9, 7, 50)` and velocity `(100/49, 0, 0)` (which damping turns into exactly
`(2, 0, 0)`, so the post-move position is `(11, 7, 50)`). -/
def fish3 : Fish := ⟨1, ⟨9, 7, 50⟩, ⟨100 / 49, 0, 0⟩, none, (0, 0, 0)⟩

/-- A concrete fish at `(10, 0, 0)`, a qualifying separation neighbor of
`fish0`. -/
def fishNear : Fish := ⟨2, ⟨10, 0, 0⟩, Vec3.zero, none, (0, 0, 0)⟩

end

/-- C1: for every agent and every invocation of the per-frame step, after the
integration completes (force, jitter, cap at `maxSpeed = 5`, damping,
boundary reflection) the velocity magnitude is at most `maxSpeed`. -/
theorem stepFish_velocity_le_maxSpeed (fish : Fish) (neighbors : List Fish)
    (mouse : ℝ × ℝ) (innerW innerH : ℝ) (jitter : Vec3) :
    (stepFish fish neighbors mouse innerW innerH jitter).velocity.length ≤ 5 := by
  have h := stepFishCore_velocity_length_le fish
    (applyBoidRules fish neighbors mouse innerW innerH) jitter (innerW / 2) (innerH / 2)
  unfold stepFish
  linarith

/-- C9: because damping (`0.98`) runs after the speed cap (`maxSpeed = 5`) and
boundary reflection only multiplies a component by `-0.8`, the end-of-step
velocity magnitude is at most `0.98 * 5`, strictly below the cap, regardless
of the steering force and jitter. -/
theorem stepFishCore_velocity_lt_cap (fish : Fish) (force jitter : Vec3) (hw hh : ℝ) :
    (stepFishCore fish force jitter hw hh).velocity.length ≤ 0.98 * 5 ∧
      (0.98 * 5 : ℝ) < 5 := by
  refine ⟨stepFishCore_velocity_length_le fish force jitter hw hh, by norm_num⟩

/-- C2: after every per-frame step with a viewport of nonnegative sampled
size, the position satisfies `x ∈ [-halfWidth, halfWidth]`,
`y ∈ [-halfHeight, halfHeight]`, `z ∈ [-100, 100]` with
`halfWidth = innerW / 2`, `halfHeight = innerH / 2`. -/
theorem stepFish_position_in_bounds (fish : Fish) (neighbors : List Fish)
    (mouse : ℝ × ℝ) (innerW innerH : ℝ) (jitter : Vec3)
    (hW : 0 ≤ innerW) (hH : 0 ≤ innerH) :
    -(innerW / 2) ≤ (stepFish fish neighbors mouse innerW innerH jitter).position.x ∧
    (stepFish fish neighbors mouse innerW innerH jitter).position.x ≤ innerW / 2 ∧
    -(innerH / 2) ≤ (stepFish fish neighbors mouse innerW innerH jitter).position.y ∧
    (stepFish fish neighbors mouse innerW innerH jitter).position.y ≤ innerH / 2 ∧
    -100 ≤ (stepFish fish neighbors mouse innerW innerH jitter).position.z ∧
    (stepFish fish neighbors mouse innerW innerH jitter).position.z ≤ 100 := by
  unfold stepFish
  rw [stepFishCore_position]
  have hx := reflectAxis_snd_mem
    (velPreBoundary fish (applyBoidRules fish neighbors mouse innerW innerH) jitter).x
    (posPreBoundary fish (applyBoidRules fish neighbors mouse innerW innerH) jitter).x
    (-(innerW / 2)) (innerW / 2) (by linarith)
  have hy := reflectAxis_snd_mem
    (velPreBoundary fish (applyBoidRules fish neighbors mouse innerW innerH) jitter).y
    (posPreBoundary fish (applyBoidRules fish neighbors mouse innerW innerH) jitter).y
    (-(innerH / 2)) (innerH / 2) (by linarith)
  have hz := reflectAxis_snd_mem
    (velPreBoundary fish (applyBoidRules fish neighbors mouse innerW innerH) jitter).z
    (posPreBoundary fish (applyBoidRules fish neighbors mouse innerW innerH) jitter).z
    (-100) 100 (by norm_num)
  exact ⟨hx.1, hx.2, hy.1, hy.2, hz.1, hz.2⟩

/-- Witness for C2 at a concrete input. -/
theorem stepFish_position_in_bounds_witness :
    (0 : ℝ) ≤ 200 ∧ (0 : ℝ) ≤ 100 ∧
    (-(200 / 2 : ℝ) ≤ (stepFish fish0 [] (0, 0) 200 100 Vec3.zero).position.x ∧
     (stepFish fish0 [] (0, 0) 200 100 Vec3.zero).position.x ≤ 200 / 2 ∧
     -(100 / 2 : ℝ) ≤ (stepFish fish0 [] (0, 0) 200 100 Vec3.zero).position.y ∧
     (stepFish fish0 [] (0, 0) 200 100 Vec3.zero).position.y ≤ 100 / 2 ∧
     -100 ≤ (stepFish fish0 [] (0, 0) 200 100 Vec3.zero).position.z ∧
     (stepFish fish0 [] (0, 0) 200 100 Vec3.zero).position.z ≤ 100) :=
  ⟨by norm_num, by norm_num,
   stepFish_position_in_bounds fish0 [] (0, 0) 200 100 Vec3.zero
     (by norm_num) (by norm_num)⟩

/-- C3: for each axis independently, an out-of-bounds post-move position on
that axis makes the step multiply that axis's velocity component by `-0.8`
and clamp that axis's position component with `max lo (min hi ·)` — with no
condition on the other two axes. -/
theorem stepFishCore_boundary_reflect (fish : Fish) (force jitter : Vec3) (hw hh : ℝ) :
    ((posPreBoundary fish force jitter).x < -hw ∨
        hw < (posPreBoundary fish force jitter).x →
      (stepFishCore fish force jitter hw hh).velocity.x =
        (velPreBoundary fish force jitter).x * (-0.8) ∧
      (stepFishCore fish force jitter hw hh).position.x =
        max (-hw) (min hw (posPreBoundary fish force jitter).x)) ∧
    ((posPreBoundary fish force jitter).y < -hh ∨
        hh < (posPreBoundary fish force jitter).y →
      (stepFishCore fish force jitter hw hh).velocity.y =
        (velPreBoundary fish force jitter).y * (-0.8) ∧
      (stepFishCore fish force jitter hw hh).position.y =
        max (-hh) (min hh (posPreBoundary fish force jitter).y)) ∧
    ((posPreBoundary fish force jitter).z < -100 ∨
        (100 : ℝ) < (posPreBoundary fish force jitter).z →
      (stepFishCore fish force jitter hw hh).velocity.z =
        (velPreBoundary fish force jitter).z * (-0.8) ∧
      (stepFishCore fish force jitter hw hh).position.z =
        max (-100) (min 100 (posPreBoundary fish force jitter).z)) := by
  refine ⟨fun hx => ?_, fun hy => ?_, fun hz => ?_⟩
  · rw [stepFishCore_velocity, stepFishCore_position]
    unfold reflectAxis
    rw [if_pos hx]
    exact ⟨rfl, rfl⟩
  · rw [stepFishCore_velocity, stepFishCore_position]
    unfold reflectAxis
    rw [if_pos hy]
    exact ⟨rfl, rfl⟩
  · rw [stepFishCore_velocity, stepFishCore_position]
    unfold reflectAxis
    rw [if_pos hz]
    exact ⟨rfl, rfl⟩

/-- Witness for C3: the concrete fish `fish3` crosses only the `x = halfWidth
= 10` boundary (y and z stay inside their bounds), with pre-reflection
velocity `x`-component `+2`, and ends the step with `velocity.x = -1.6` and
`position.x = 10`. -/
theorem stepFishCore_boundary_reflect_witness :
    ((posPreBoundary fish3 Vec3.zero Vec3.zero).x < -(10 : ℝ) ∨
      (10 : ℝ) < (posPreBoundary fish3 Vec3.zero Vec3.zero).x) ∧
    ¬((posPreBoundary fish3 Vec3.zero Vec3.zero).y < -(50 : ℝ) ∨
      (50 : ℝ) < (posPreBoundary fish3 Vec3.zero Vec3.zero).y) ∧
    ¬((posPreBoundary fish3 Vec3.zero Vec3.zero).z < -(100 : ℝ) ∨
      (100 : ℝ) < (posPreBoundary fish3 Vec3.zero Vec3.zero).z) ∧
    (velPreBoundary fish3 Vec3.zero Vec3.zero).x = 2 ∧
    (stepFishCore fish3 Vec3.zero Vec3.zero 10 50).velocity.x = -1.6 ∧
    (stepFishCore fish3 Vec3.zero Vec3.zero 10 50).position.x = 10 := by
  have hforces : velAfterForces fish3 Vec3.zero Vec3.zero = ⟨100 / 49, 0, 0⟩ := by
    ext <;> simp [velAfterForces, Vec3.add, Vec3.zero, fish3]
  have hlen : (velAfterForces fish3 Vec3.zero Vec3.zero).length = 100 / 49 := by
    rw [hforces, Vec3.length_x]
    norm_num
  have hcap : velAfterCap fish3 Vec3.zero Vec3.zero = ⟨100 / 49, 0, 0⟩ := by
    simp only [velAfterCap]
    rw [hlen, if_neg (by norm_num), hforces]
  have hpre : velPreBoundary fish3 Vec3.zero Vec3.zero = ⟨2, 0, 0⟩ := by
    unfold velPreBoundary
    rw [hcap]
    ext <;> norm_num [Vec3.multiplyScalar]
  have hpos : posPreBoundary fish3 Vec3.zero Vec3.zero = ⟨11, 7, 50⟩ := by
    unfold posPreBoundary
    rw [hpre]
    ext <;> norm_num [Vec3.add, fish3]
  have hx : (posPreBoundary fish3 Vec3.zero Vec3.zero).x < -(10 : ℝ) ∨
      (10 : ℝ) < (posPreBoundary fish3 Vec3.zero Vec3.zero).x := by
    right
    rw [hpos]
    norm_num
  have hy : ¬((posPreBoundary fish3 Vec3.zero Vec3.zero).y < -(50 : ℝ) ∨
      (50 : ℝ) < (posPreBoundary fish3 Vec3.zero Vec3.zero).y) := by
    rw [hpos]
    push_neg
    norm_num
  have hz : ¬((posPreBoundary fish3 Vec3.zero Vec3.zero).z < -(100 : ℝ) ∨
      (100 : ℝ) < (posPreBoundary fish3 Vec3.zero Vec3.zero).z) := by
    rw [hpos]
    push_neg
    norm_num
  obtain ⟨hvx, hpx⟩ :=
    (stepFishCore_boundary_reflect fish3 Vec3.zero Vec3.zero 10 50).1 hx
  refine ⟨hx, hy, hz, by rw [hpre], ?_, ?_⟩
  · rw [hvx, hpre]
    norm_num
  · rw [hpx, hpos]
    norm_num

/-- C7: an agent with no other agent strictly within distance 120 and the
converted pointer position at distance 200 or more receives exactly the zero
steering vector: every rule with an empty qualifying set contributes zero. -/
theorem applyBoidRules_isolated_zero (fish : Fish) (neighbors : List Fish)
    (mouse : ℝ × ℝ) (innerW innerH : ℝ)
    (hn : ∀ n ∈ neighbors, n.id ≠ fish.id → 120 ≤ fish.position.distanceTo n.position)
    (hm : 200 ≤ fish.position.distanceTo (mousePosOf mouse innerW innerH)) :
    applyBoidRules fish neighbors mouse innerW innerH = Vec3.zero := by
  have hacc := boidAcc_far fish neighbors hn
  have hmc : ¬(fish.position.distanceTo (mousePosOf mouse innerW innerH) < 200 ∧
      0 < fish.position.distanceTo (mousePosOf mouse innerW innerH)) := by
    rintro ⟨h1, -⟩
    linarith
  unfold applyBoidRules separationComponent alignmentComponent cohesionComponent
    mouseAttractionComponent
  rw [hacc]
  simp only [initAcc, lt_irrefl, if_false, if_neg hmc]
  ext <;> simp [Vec3.add, Vec3.zero]

/-- Witness for C7: an isolated fish at the origin with the pointer target at
distance 300. -/
theorem applyBoidRules_isolated_zero_witness :
    (∀ n ∈ ([] : List Fish), n.id ≠ fish0.id →
      120 ≤ fish0.position.distanceTo n.position) ∧
    200 ≤ fish0.position.distanceTo (mousePosOf (300, 0) 0 0) ∧
    applyBoidRules fish0 [] (300, 0) 0 0 = Vec3.zero := by
  have h1 : mousePosOf (300, 0) 0 0 = ⟨300, 0, 0⟩ := by
    ext <;> simp [mousePosOf]
  have h2 : fish0.position.sub ⟨300, 0, 0⟩ = ⟨-300, 0, 0⟩ := by
    ext <;> simp [Vec3.sub, fish0, Vec3.zero]
  have hm : 200 ≤ fish0.position.distanceTo (mousePosOf (300, 0) 0 0) := by
    unfold Vec3.distanceTo
    rw [h1, h2, Vec3.length_x]
    norm_num
  exact ⟨by simp, hm,
    applyBoidRules_isolated_zero fish0 [] (300, 0) 0 0 (by simp) hm⟩

/-- C5: the code's pointer-attraction contribution coincides with the spec's
description for every input. -/
theorem mouseAttraction_eq_spec (fish : Fish) (mouse : ℝ × ℝ) (innerW innerH : ℝ) :
    mouseAttractionComponent fish mouse innerW innerH =
      mouseAttractionSpec fish mouse innerW innerH := by
  unfold mouseAttractionComponent mouseAttractionSpec mousePosOf
  set mp : Vec3 := ⟨mouse.1 - innerW / 2, -(mouse.2 - innerH / 2), 0⟩ with hmp
  by_cases hc : 0 < fish.position.distanceTo mp ∧ fish.position.distanceTo mp < 200
  · rw [if_pos ⟨hc.2, hc.1⟩, if_pos hc]
    have hlen : (mp.sub fish.position).length = fish.position.distanceTo mp := by
      unfold Vec3.distanceTo
      exact Vec3.length_sub_comm mp fish.position
    have hne : (mp.sub fish.position).length ≠ 0 := by
      rw [hlen]
      exact ne_of_gt hc.1
    unfold unitFromTo Vec3.normalize
    rw [if_neg hne]
  · rw [if_neg (fun h => hc ⟨h.2, h.1⟩), if_neg hc]

/-- Scalar multiplications compose. -/
lemma Vec3.multiplyScalar_multiplyScalar (a : Vec3) (s t : ℝ) :
    (a.multiplyScalar s).multiplyScalar t = a.multiplyScalar (s * t) := by
  ext <;> simp [Vec3.multiplyScalar] <;> ring

/-- The separation field of one loop iteration: updated exactly when the
neighbor qualifies for separation. -/
lemma boidStep_sep (fish : Fish) (acc : BoidAcc) (n : Fish) :
    (boidStepNeighbor fish acc n).separation =
      if sepQualifies fish n then acc.separation.add (sepContrib fish n)
      else acc.separation := by
  by_cases hid : n.id = fish.id
  · have hnq : ¬sepQualifies fish n := fun hq => hq.1 hid
    simp only [boidStepNeighbor, if_pos hid, if_neg hnq]
  · by_cases h50 : fish.position.distanceTo n.position < 50 ∧
        0 < fish.position.distanceTo n.position
    · have hq : sepQualifies fish n := ⟨hid, h50.1, h50.2⟩
      simp only [boidStepNeighbor, if_neg hid, if_pos h50, if_pos hq]
      split_ifs <;> rfl
    · have hnq : ¬sepQualifies fish n := fun hq => h50 ⟨hq.2.1, hq.2.2⟩
      simp only [boidStepNeighbor, if_neg hid, if_neg h50, if_neg hnq]
      split_ifs <;> rfl

/-- The separation counter of one loop iteration. -/
lemma boidStep_sepCount (fish : Fish) (acc : BoidAcc) (n : Fish) :
    (boidStepNeighbor fish acc n).separationCount =
      if sepQualifies fish n then acc.separationCount + 1
      else acc.separationCount := by
  by_cases hid : n.id = fish.id
  · have hnq : ¬sepQualifies fish n := fun hq => hq.1 hid
    simp only [boidStepNeighbor, if_pos hid, if_neg hnq]
  · by_cases h50 : fish.position.distanceTo n.position < 50 ∧
        0 < fish.position.distanceTo n.position
    · have hq : sepQualifies fish n := ⟨hid, h50.1, h50.2⟩
      simp only [boidStepNeighbor, if_neg hid, if_pos h50, if_pos hq]
      split_ifs <;> rfl
    · have hnq : ¬sepQualifies fish n := fun hq => h50 ⟨hq.2.1, hq.2.2⟩
      simp only [boidStepNeighbor, if_neg hid, if_neg h50, if_neg hnq]
      split_ifs <;> rfl

/-- The separation projection of the accumulator loop is the fold of the
per-neighbor contributions over the qualifying neighbors, and the counter is
their number. -/
lemma boidAcc_sep_fold (fish : Fish) (ns : List Fish) : ∀ acc : BoidAcc,
    (List.foldl (boidStepNeighbor fish) acc ns).separation =
      List.foldl (fun s n => s.add (sepContrib fish n)) acc.separation
        (ns.filter fun n => decide (sepQualifies fish n)) ∧
    (List.foldl (boidStepNeighbor fish) acc ns).separationCount =
      acc.separationCount + (ns.filter fun n => decide (sepQualifies fish n)).length := by
  induction ns with
  | nil => intro acc; simp
  | cons n t ih =>
    intro acc
    by_cases hq : sepQualifies fish n
    · rw [List.foldl_cons,
        List.filter_cons_of_pos (by simpa using hq)]
      obtain ⟨ihs, ihc⟩ := ih (boidStepNeighbor fish acc n)
      refine ⟨?_, ?_⟩
      · rw [ihs, boidStep_sep, if_pos hq, List.foldl_cons]
      · rw [ihc, boidStep_sepCount, if_pos hq]
        simp
        omega
    · rw [List.foldl_cons,
        List.filter_cons_of_neg (by simpa using hq)]
      obtain ⟨ihs, ihc⟩ := ih (boidStepNeighbor fish acc n)
      refine ⟨?_, ?_⟩
      · rw [ihs, boidStep_sep, if_neg hq]
      · rw [ihc, boidStep_sepCount, if_neg hq]

/-- C4: the code's separation contribution equals the spec's formula (average
of inverse-distance-weighted unit vectors away from qualifying neighbors,
normalized, scaled by 0.5), and each pairwise contribution is a positive
multiple of the vector from the neighbor to the agent. -/
theorem separation_eq_spec (fish : Fish) (neighbors : List Fish) (n : Fish)
    (hq : sepQualifies fish n) :
    separationComponent fish neighbors = sepSpec fish neighbors ∧
    ∃ c : ℝ, 0 < c ∧
      sepContrib fish n = (fish.position.sub n.position).multiplyScalar c := by
  constructor
  · obtain ⟨hs, hc⟩ := boidAcc_sep_fold fish neighbors initAcc
    have hc0 : (initAcc.separationCount : ℕ) = 0 := rfl
    simp only [separationComponent, sepSpec, boidAcc]
    rw [hs, hc, hc0, Nat.zero_add]
    by_cases hlen : (neighbors.filter fun m => decide (sepQualifies fish m)).length = 0
    · rw [if_neg (by omega), if_pos hlen]
      rw [List.length_eq_zero] at hlen
      rw [hlen]
      rfl
    · rw [if_pos (by omega), if_neg hlen]
      have hsum : List.foldl (fun s m => s.add (sepContrib fish m)) initAcc.separation
            (neighbors.filter fun m => decide (sepQualifies fish m)) =
          List.foldl (fun s m =>
            s.add ((unitFromTo m.position fish.position).divideScalar
              (fish.position.distanceTo m.position))) Vec3.zero
            (neighbors.filter fun m => decide (sepQualifies fish m)) := by
        apply List.foldl_ext
        intro s m hm
        rw [List.mem_filter, decide_eq_true_eq] at hm
        have hd : fish.position.distanceTo m.position ≠ 0 := ne_of_gt hm.2.2.2
        have hdiff : (fish.position.sub m.position).length =
            fish.position.distanceTo m.position := rfl
        unfold sepContrib Vec3.normalize unitFromTo
        rw [hdiff, if_neg hd]
      rw [hsum]
  · have hd : 0 < fish.position.distanceTo n.position := hq.2.2
    refine ⟨(1 / fish.position.distanceTo n.position) *
      (1 / fish.position.distanceTo n.position), by positivity, ?_⟩
    have hdiff : (fish.position.sub n.position).length =
        fish.position.distanceTo n.position := rfl
    unfold sepContrib Vec3.normalize Vec3.divideScalar
    rw [hdiff, if_neg (ne_of_gt hd), Vec3.multiplyScalar_multiplyScalar]

/-- Witness for C4: at the origin, a neighbor at `(10, 0, 0)` qualifies for
separation. -/
theorem separation_eq_spec_witness :
    sepQualifies fish0 fishNear ∧
    (separationComponent fish0 [] = sepSpec fish0 [] ∧
     ∃ c : ℝ, 0 < c ∧
       sepContrib fish0 fishNear =
         (fish0.position.sub fishNear.position).multiplyScalar c) := by
  have hsub : fish0.position.sub fishNear.position = ⟨-10, 0, 0⟩ := by
    ext <;> simp [Vec3.sub, fish0, fishNear, Vec3.zero]
  have hd : fish0.position.distanceTo fishNear.position = 10 := by
    unfold Vec3.distanceTo
    rw [hsub, Vec3.length_x]
    norm_num
  have hq : sepQualifies fish0 fishNear := by
    refine ⟨by simp [fish0, fishNear], ?_, ?_⟩ <;> rw [hd] <;> norm_num
  exact ⟨hq, separation_eq_spec fish0 [] fishNear hq⟩

/-- A checked division with a nonzero divisor succeeds. -/
lemma Vec3.divideScalarChecked_of_ne (a : Vec3) (s : ℝ) (h : s ≠ 0) :
    a.divideScalarChecked s = some (a.divideScalar s) := by
  simp [Vec3.divideScalarChecked, h]

/-- Checked normalization never fails and agrees with THREE's `normalize`. -/
lemma normalizeChecked_eq (a : Vec3) : a.normalizeChecked = some a.normalize := by
  by_cases h : a.length = 0 <;>
    simp [Vec3.normalizeChecked, Vec3.divideScalarChecked, Vec3.normalize, h]

/-- The checked separation contribution succeeds at positive distance. -/
lemma sepContribChecked_eq (fish n : Fish)
    (hd : fish.position.distanceTo n.position ≠ 0) :
    sepContribChecked fish n = some (sepContrib fish n) := by
  unfold sepContribChecked sepContrib
  rw [normalizeChecked_eq]
  simp [Vec3.divideScalarChecked_of_ne _ _ hd]

/-- The checked loop body never fails and agrees with the loop body. -/
lemma boidStepNeighborChecked_eq (fish : Fish) (a : BoidAcc) (n : Fish) :
    boidStepNeighborChecked fish (some a) n = some (boidStepNeighbor fish a n) := by
  by_cases hid : n.id = fish.id
  · simp [boidStepNeighborChecked, boidStepNeighbor, hid]
  · by_cases h50 : fish.position.distanceTo n.position < 50 ∧
        0 < fish.position.distanceTo n.position
    · have hd : fish.position.distanceTo n.position ≠ 0 := ne_of_gt h50.2
      simp [boidStepNeighborChecked, boidStepNeighbor, hid, h50,
        sepContribChecked_eq fish n hd]
    · simp [boidStepNeighborChecked, boidStepNeighbor, hid, h50]

/-- The checked accumulator loop never fails. -/
lemma boidAccChecked_eq (fish : Fish) (neighbors : List Fish) :
    boidAccChecked fish neighbors = some (boidAcc fish neighbors) := by
  unfold boidAccChecked boidAcc
  suffices key : ∀ (t : List Fish) (a : BoidAcc),
      List.foldl (boidStepNeighborChecked fish) (some a) t =
        some (List.foldl (boidStepNeighbor fish) a t) from key neighbors initAcc
  intro t
  induction t with
  | nil => intro a; rfl
  | cons n t ih =>
    intro a
    rw [List.foldl_cons, List.foldl_cons, boidStepNeighborChecked_eq]
    exact ih (boidStepNeighbor fish a n)

/-- A positive counter casts to a nonzero real divisor. -/
lemma count_cast_ne_zero {c : ℕ} (h : 0 < c) : (c : ℝ) ≠ 0 :=
  Nat.cast_ne_zero.mpr (Nat.pos_iff_ne_zero.mp h)

/-- The checked separation component never fails. -/
lemma separationComponentChecked_eq (fish : Fish) (neighbors : List Fish) :
    separationComponentChecked fish neighbors =
      some (separationComponent fish neighbors) := by
  unfold separationComponentChecked
  rw [boidAccChecked_eq]
  simp only [Option.some_bind, separationComponent]
  by_cases h : 0 < (boidAcc fish neighbors).separationCount
  · rw [if_pos h, if_pos h,
      Vec3.divideScalarChecked_of_ne _ _ (count_cast_ne_zero h)]
    simp [normalizeChecked_eq]
  · rw [if_neg h, if_neg h]

/-- The checked alignment component never fails. -/
lemma alignmentComponentChecked_eq (fish : Fish) (neighbors : List Fish) :
    alignmentComponentChecked fish neighbors =
      some (alignmentComponent fish neighbors) := by
  unfold alignmentComponentChecked
  rw [boidAccChecked_eq]
  simp only [Option.some_bind, alignmentComponent]
  by_cases h : 0 < (boidAcc fish neighbors).alignmentCount
  · rw [if_pos h, if_pos h,
      Vec3.divideScalarChecked_of_ne _ _ (count_cast_ne_zero h)]
    simp [normalizeChecked_eq]
  · rw [if_neg h, if_neg h]

/-- The checked cohesion component never fails. -/
lemma cohesionComponentChecked_eq (fish : Fish) (neighbors : List Fish) :
    cohesionComponentChecked fish neighbors =
      some (cohesionComponent fish neighbors) := by
  unfold cohesionComponentChecked
  rw [boidAccChecked_eq]
  simp only [Option.some_bind, cohesionComponent]
  by_cases h : 0 < (boidAcc fish neighbors).cohesionCount
  · rw [if_pos h, if_pos h,
      Vec3.divideScalarChecked_of_ne _ _ (count_cast_ne_zero h)]
    simp [normalizeChecked_eq]
  · rw [if_neg h, if_neg h]

/-- The checked pointer attraction never fails. -/
lemma mouseAttractionComponentChecked_eq (fish : Fish) (mouse : ℝ × ℝ)
    (innerW innerH : ℝ) :
    mouseAttractionComponentChecked fish mouse innerW innerH =
      some (mouseAttractionComponent fish mouse innerW innerH) := by
  unfold mouseAttractionComponentChecked mouseAttractionComponent
  by_cases h : fish.position.distanceTo (mousePosOf mouse innerW innerH) < 200 ∧
      0 < fish.position.distanceTo (mousePosOf mouse innerW innerH)
  · simp only [if_pos h]
    simp [normalizeChecked_eq]
  · simp only [if_neg h]

/-- C8: `applyBoidRules` is total and never divides by zero — the instrumented
variant, which fails on any executed zero-divisor division, always succeeds
and returns exactly the code's steering vector; the zero-distance guards on
separation and pointer attraction make every executed divisor nonzero. -/
theorem applyBoidRulesChecked_eq (fish : Fish) (neighbors : List Fish)
    (mouse : ℝ × ℝ) (innerW innerH : ℝ) :
    applyBoidRulesChecked fish neighbors mouse innerW innerH =
      some (applyBoidRules fish neighbors mouse innerW innerH) := by
  unfold applyBoidRulesChecked applyBoidRules
  rw [separationComponentChecked_eq, alignmentComponentChecked_eq,
    cohesionComponentChecked_eq, mouseAttractionComponentChecked_eq]
  rfl

/-- Unfolding of the update loop at a null-mesh fish: it is appended to the
updated prefix unchanged. -/
lemma updateLoop_cons_none (m : ℝ × ℝ) (w h : ℝ) (jit : ℕ → Vec3) (f : Fish)
    (done rest : List Fish) (i : ℕ) (hm : f.mesh = none) :
    updateLoop m w h jit done (f :: rest) i =
      updateLoop m w h jit (done ++ [f]) rest (i + 1) := by
  simp only [updateLoop, hm]

/-- Unfolding of the update loop at a fish with a mesh: its stepped version is
appended, computed against the partially updated array. -/
lemma updateLoop_cons_some (m : ℝ × ℝ) (w h : ℝ) (jit : ℕ → Vec3) (f : Fish)
    (done rest : List Fish) (i : ℕ) (msh : Mesh) (hm : f.mesh = some msh) :
    updateLoop m w h jit done (f :: rest) i =
      updateLoop m w h jit
        (done ++ [stepFish f (done ++ f :: rest) m w h (jit i)]) rest (i + 1) := by
  simp only [updateLoop, hm]

/-- The update loop only appends to the already-processed prefix. -/
lemma updateLoop_shape (m : ℝ × ℝ) (w h : ℝ) (jit : ℕ → Vec3) :
    ∀ (rest done : List Fish) (i : ℕ),
      ∃ tail, updateLoop m w h jit done rest i = done ++ tail := by
  intro rest
  induction rest with
  | nil => intro done i; exact ⟨[], by simp [updateLoop]⟩
  | cons f rest ih =>
    intro done i
    cases hm : f.mesh with
    | none =>
      obtain ⟨tail, ht⟩ := ih (done ++ [f]) (i + 1)
      exact ⟨f :: tail,
        by rw [updateLoop_cons_none m w h jit f done rest i hm, ht]; simp⟩
    | some msh =>
      obtain ⟨tail, ht⟩ :=
        ih (done ++ [stepFish f (done ++ f :: rest) m w h (jit i)]) (i + 1)
      exact ⟨stepFish f (done ++ f :: rest) m w h (jit i) :: tail,
        by rw [updateLoop_cons_some m w h jit f done rest i msh hm, ht]; simp⟩

/-- Element-wise characterization of the update loop: a null-mesh fish comes
out unchanged, and a fish with a mesh comes out stepped against the updated
prefix and the untouched suffix. -/
lemma updateLoop_get (m : ℝ × ℝ) (w h : ℝ) (jit : ℕ → Vec3) :
    ∀ (rest done : List Fish) (i j : ℕ) (hj : j < rest.length),
      ((rest.get ⟨j, hj⟩).mesh = none →
        (updateLoop m w h jit done rest i)[done.length + j]? =
          some (rest.get ⟨j, hj⟩)) ∧
      (∀ msh, (rest.get ⟨j, hj⟩).mesh = some msh →
        (updateLoop m w h jit done rest i)[done.length + j]? =
          some (stepFish (rest.get ⟨j, hj⟩)
            ((updateLoop m w h jit done rest i).take (done.length + j) ++ rest.drop j)
            m w h (jit (i + j)))) := by
  intro rest
  induction rest with
  | nil => intro done i j hj; exact absurd hj (by simp)
  | cons f rest ih =>
    intro done i j hj
    cases j with
    | zero =>
      cases hm : f.mesh with
      | none =>
        constructor
        · intro _
          obtain ⟨tail, ht⟩ := updateLoop_shape m w h jit rest (done ++ [f]) (i + 1)
          rw [updateLoop_cons_none m w h jit f done rest i hm, ht,
            List.append_assoc, Nat.add_zero,
            List.getElem?_append_right (le_refl done.length)]
          simp
        · intro msh hmsh
          have hmf : f.mesh = some msh := hmsh
          rw [hm] at hmf
          exact Option.noConfusion hmf
      | some msh0 =>
        constructor
        · intro hnone
          have hmf : f.mesh = none := hnone
          rw [hm] at hmf
          exact Option.noConfusion hmf
        · intro msh hmsh
          obtain ⟨tail, ht⟩ := updateLoop_shape m w h jit rest
            (done ++ [stepFish f (done ++ f :: rest) m w h (jit i)]) (i + 1)
          rw [updateLoop_cons_some m w h jit f done rest i msh0 hm, ht,
            List.append_assoc, Nat.add_zero,
            List.getElem?_append_right (le_refl done.length), List.take_left]
          simp
    | succ j =>
      have hj' : j < rest.length := by simpa using hj
      cases hm : f.mesh with
      | none =>
        have key := ih (done ++ [f]) (i + 1) j hj'
        rw [updateLoop_cons_none m w h jit f done rest i hm]
        have hidx : done.length + (j + 1) = (done ++ [f]).length + j := by
          simp
          omega
        rw [hidx]
        constructor
        · intro hnone
          simp only [List.get_cons_succ] at hnone ⊢
          exact key.1 hnone
        · intro msh hmsh
          simp only [List.get_cons_succ] at hmsh ⊢
          simp only [List.drop_succ_cons]
          have harg : i + (j + 1) = i + 1 + j := by omega
          rw [harg]
          exact key.2 msh hmsh
      | some msh0 =>
        have key := ih (done ++ [stepFish f (done ++ f :: rest) m w h (jit i)]) (i + 1) j hj'
        rw [updateLoop_cons_some m w h jit f done rest i msh0 hm]
        have hidx : done.length + (j + 1) =
            (done ++ [stepFish f (done ++ f :: rest) m w h (jit i)]).length + j := by
          simp
          omega
        rw [hidx]
        constructor
        · intro hnone
          simp only [List.get_cons_succ] at hnone ⊢
          exact key.1 hnone
        · intro msh hmsh
          simp only [List.get_cons_succ] at hmsh ⊢
          simp only [List.drop_succ_cons]
          have harg : i + (j + 1) = i + 1 + j := by omega
          rw [harg]
          exact key.2 msh hmsh

/-- C10: `updateFishAnimation` skips a fish whose mesh handle is null — it
comes out with every field exactly unchanged — while a fish with a non-null
mesh is stepped (against the already-updated prefix and untouched suffix,
reflecting in-place mutation). -/
theorem updateFishAnimation_skip_null (fishes : List Fish) (m : ℝ × ℝ)
    (w h : ℝ) (jit : ℕ → Vec3) (i : ℕ) (hi : i < fishes.length) :
    ((fishes.get ⟨i, hi⟩).mesh = none →
      (updateFishAnimation fishes m w h jit)[i]? = some (fishes.get ⟨i, hi⟩)) ∧
    (∀ msh, (fishes.get ⟨i, hi⟩).mesh = some msh →
      (updateFishAnimation fishes m w h jit)[i]? =
        some (stepFish (fishes.get ⟨i, hi⟩)
          ((updateFishAnimation fishes m w h jit).take i ++ fishes.drop i)
          m w h (jit i))) := by
  have key := updateLoop_get m w h jit fishes [] 0 i hi
  simpa [updateFishAnimation] using key

/-- Witness for C10: a single null-mesh fish passes through unchanged. -/
theorem updateFishAnimation_skip_null_witness :
    0 < ([fish0] : List Fish).length ∧
    (updateFishAnimation [fish0] (0, 0) 0 0 (fun _ => Vec3.zero))[0]? = some fish0 :=
  ⟨by simp,
   (updateFishAnimation_skip_null [fish0] (0, 0) 0 0 (fun _ => Vec3.zero) 0
     (by simp)).1 rfl⟩

/-- C6: one star-advance step increments `twinklePhase` by exactly `0.02` and
recomputes `opacity = baseOpacity + sin(twinklePhase) * 0.1` with the already
incremented phase; in particular a star with `baseOpacity = 0.3` and
`twinklePhase = 0` has opacity `0.3 + sin 0.02 * 0.1` after one advance. -/
theorem advanceStar_phase_opacity :
    (∀ s : StarSim.Star, (StarSim.advanceStar s).twinklePhase = s.twinklePhase + 0.02 ∧
      (StarSim.advanceStar s).opacity = s.baseOpacity + Real.sin (s.twinklePhase + 0.02) * 0.1) ∧
    (StarSim.advanceStar ⟨0, 0, 0.3, 0.3, 0⟩).opacity = 0.3 + Real.sin 0.02 * 0.1 := by
  refine ⟨fun s => ⟨rfl, rfl⟩, ?_⟩
  show (0.3 : ℝ) + Real.sin (0 + 0.02) * 0.1 = 0.3 + Real.sin 0.02 * 0.1
  rw [zero_add]
